import Mathlib

/-!
Shallow embedding of the decision-support core of the repository:
the six decision criteria and their factory (src/decision-criteria.js),
the results aggregator (src/results-analyzer.js), and the payoff-matrix
accessors they consume (DecisionMatrix in src/unnamed/part_001).

JavaScript numbers are modelled by `JSNum`: a finite rational, the two
infinities, or NaN.  The matrix cells themselves are stored as rationals
(the matrix editor coerces every cell to a finite number), but the
criteria arithmetic can produce `Infinity`, `-Infinity` and `NaN` through
`Math.min()` / `Math.max()` on empty rows and through IEEE rules such as
`0 * Infinity = NaN`, so those values are represented faithfully.
A thrown exception (`TypeError` from indexing into `undefined`, or an
explicit `throw new Error(...)`) is modelled with `Except JsError`.
-/

/-- JavaScript number: finite (exact rational), the infinities, or NaN. -/
inductive JSNum where
  | num (q : ℚ)
  | posInf
  | negInf
  | nan
deriving DecidableEq, Repr

/-- JavaScript exception: a `TypeError` raised by indexing into `undefined`
(or calling a method of `undefined`), or an `Error` thrown with a message. -/
inductive JsError where
  | typeError
  | thrown (msg : String)
deriving DecidableEq, Repr

/-- IEEE addition as performed by JavaScript `+` on numbers. -/
def JSNum.add : JSNum → JSNum → JSNum
  | .num a, .num b => .num (a + b)
  | .num _, .posInf => .posInf
  | .num _, .negInf => .negInf
  | .posInf, .num _ => .posInf
  | .negInf, .num _ => .negInf
  | .posInf, .posInf => .posInf
  | .negInf, .negInf => .negInf
  | .posInf, .negInf => .nan
  | .negInf, .posInf => .nan
  | .nan, _ => .nan
  | _, .nan => .nan

/-- IEEE multiplication as performed by JavaScript `*` on numbers
(in particular `0 * Infinity = NaN`). -/
def JSNum.mul : JSNum → JSNum → JSNum
  | .num a, .num b => .num (a * b)
  | .num a, .posInf => if 0 < a then .posInf else if a < 0 then .negInf else .nan
  | .num a, .negInf => if 0 < a then .negInf else if a < 0 then .posInf else .nan
  | .posInf, .num b => if 0 < b then .posInf else if b < 0 then .negInf else .nan
  | .negInf, .num b => if 0 < b then .negInf else if b < 0 then .posInf else .nan
  | .posInf, .posInf => .posInf
  | .posInf, .negInf => .negInf
  | .negInf, .posInf => .negInf
  | .negInf, .negInf => .posInf
  | .nan, _ => .nan
  | _, .nan => .nan

/-- IEEE negation. -/
def JSNum.neg : JSNum → JSNum
  | .num a => .num (-a)
  | .posInf => .negInf
  | .negInf => .posInf
  | .nan => .nan

/-- IEEE subtraction, `a - b = a + (-b)` exactly. -/
def JSNum.sub (a b : JSNum) : JSNum := a.add b.neg

/-- JavaScript `>` on numbers: false whenever either side is NaN. -/
def jsGt : JSNum → JSNum → Bool
  | .num a, .num b => decide (b < a)
  | .num _, .negInf => true
  | .posInf, .num _ => true
  | .posInf, .negInf => true
  | _, _ => false

/-- JavaScript strict equality `===` on numbers: `NaN === NaN` is false. -/
def jsStrictEq : JSNum → JSNum → Bool
  | .num a, .num b => decide (a = b)
  | .posInf, .posInf => true
  | .negInf, .negInf => true
  | _, _ => false

/-- One step of `Math.max`: NaN is contagious, otherwise the larger value. -/
def jsMax2 (a b : JSNum) : JSNum :=
  if a = .nan || b = .nan then .nan else if jsGt b a then b else a

/-- One step of `Math.min`: NaN is contagious, otherwise the smaller value. -/
def jsMin2 (a b : JSNum) : JSNum :=
  if a = .nan || b = .nan then .nan else if jsGt a b then b else a

/-- `Math.max(...l)`: `-Infinity` on the empty list, NaN-contagious. -/
def jsMaxList (l : List JSNum) : JSNum := l.foldl jsMax2 .negInf

/-- `Math.min(...l)`: `Infinity` on the empty list, NaN-contagious. -/
def jsMinList (l : List JSNum) : JSNum := l.foldl jsMin2 .posInf

/-- Helper for `Array.prototype.indexOf`, carrying the current position. -/
def jsIndexOfAux (v : JSNum) : List JSNum → ℕ → ℤ
  | [], _ => -1
  | x :: xs, k => if jsStrictEq x v then (k : ℤ) else jsIndexOfAux v xs (k + 1)

/-- `values.indexOf(v)`: the first index whose element is strictly equal to
`v`, and `-1` when there is none (so `-1` whenever `v` is NaN). -/
def jsIndexOf (l : List JSNum) (v : JSNum) : ℤ := jsIndexOfAux v l 0

/-- `Math.round(q)` for a finite argument: `floor(q + 0.5)` (halves round up). -/
def jsRound (q : ℚ) : ℤ := ⌊q + 1 / 2⌋

/-! ## DecisionMatrix (src/unnamed/part_001)

`data` is the list of rows; a row index at or beyond `data.length` models a
missing (`undefined`) row, and a column index at or beyond a row's length
models a missing (`undefined`) cell, which JavaScript arithmetic turns into
NaN.  `strategiesCount` / `statesCount` are stored separately exactly as in
the source, so they can disagree with the actual shape of `data`. -/

structure DecisionMatrix where
  strategiesCount : ℕ
  statesCount : ℕ
  data : List (List ℚ)
  strategies : List String
deriving DecidableEq, Repr

/-- The value of `row[j]`: a missing cell is `undefined`, which JavaScript
arithmetic and comparisons treat as NaN. -/
def cellVal (row : List ℚ) (j : ℕ) : JSNum :=
  match row.get? j with
  | some q => JSNum.num q
  | none => JSNum.nan

/-- Reading `matrix.data[i][j]` inside a criterion: a missing row is a
`TypeError` (indexing into `undefined`). -/
def readCell (data : List (List ℚ)) (i j : ℕ) : Except JsError JSNum :=
  match data.get? i with
  | none => .error .typeError
  | some row => .ok (cellVal row j)

/-- `getRowMin(rowIndex)`: `0` for a missing row, else `Math.min(...row)`. -/
def DecisionMatrix.getRowMin (m : DecisionMatrix) (rowIndex : ℕ) : JSNum :=
  match m.data.get? rowIndex with
  | none => .num 0
  | some row => jsMinList (row.map JSNum.num)

/-- `getRowMax(rowIndex)`: `0` for a missing row, else `Math.max(...row)`. -/
def DecisionMatrix.getRowMax (m : DecisionMatrix) (rowIndex : ℕ) : JSNum :=
  match m.data.get? rowIndex with
  | none => .num 0
  | some row => jsMaxList (row.map JSNum.num)

/-- `getColumnMax(colIndex)`: scans rows `0 ≤ i < strategiesCount`, skipping
missing rows (`this.data[i] && ...`); a missing cell compares as
`undefined > max`, which is false; if nothing was found the running
`-Infinity` is replaced by `0`. -/
def DecisionMatrix.getColumnMax (m : DecisionMatrix) (colIndex : ℕ) : JSNum :=
  let mx := (List.range m.strategiesCount).foldl (fun mx i =>
    match m.data.get? i with
    | none => mx
    | some row =>
      if jsGt (cellVal row colIndex) mx then cellVal row colIndex else mx)
    JSNum.negInf
  if mx = .negInf then .num 0 else mx

/-- The sentinel string the source uses for an undetermined strategy. -/
def undetermined : String := "Не определено"

/-- `matrix.strategies[strategyIndex] || 'Не определено'`: a negative or
out-of-range index gives `undefined`, and any falsy value (including the
empty string) is replaced by the sentinel. -/
def strategyNameAt (m : DecisionMatrix) (idx : ℤ) : String :=
  let s : String := if 0 ≤ idx then (m.strategies.get? idx.toNat).getD "" else ""
  if s = "" then undetermined else s

/-! ## Criterion results and the per-criterion loops

The per-strategy `calculations` audit trace is presentation-only text and
carries no data used downstream, so its content is not materialised here;
however, building it in the source dereferences `matrix.data[i]`
(`Wald`/`Maximax` call `matrix.data[i].join`), so the `TypeError` it raises
on a missing row is kept. -/

structure CritResult where
  values : List JSNum
  optimalIndex : ℤ
  optimalValue : JSNum
  strategy : String
  type : String
deriving DecidableEq, Repr

/-- A fallible left fold, used to model the `for` loops of the criteria:
each iteration computes `f i` (which may throw) and folds the result into
the accumulator with `g`; the first exception aborts the whole loop. -/
def foldE {γ : Type} (g : γ → JSNum → γ) (b : γ) (l : List ℕ)
    (f : ℕ → Except JsError JSNum) : Except JsError γ :=
  l.foldlM (fun acc i => (f i).map (g acc)) b

/-- Loop collecting one value per iteration into `values`. -/
def collectE (l : List ℕ) (f : ℕ → Except JsError JSNum) :
    Except JsError (List JSNum) :=
  foldE (fun acc v => acc ++ [v]) [] l f

/-- Loop accumulating `expected += term`, starting from `0`. -/
def sumE (l : List ℕ) (f : ℕ → Except JsError JSNum) : Except JsError JSNum :=
  foldE JSNum.add (.num 0) l f

/-- Loop accumulating `if (risk > maxRisk) maxRisk = risk`, from `-Infinity`. -/
def foldMaxE (l : List ℕ) (f : ℕ → Except JsError JSNum) :
    Except JsError JSNum :=
  foldE (fun mr r => if jsGt r mr then r else mr) .negInf l f

/-- `WaldCriterion.calculate`: per strategy the row minimum; the audit
formula string indexes `matrix.data[i]`, so a missing row is a `TypeError`;
then arg-max with `indexOf` tie-breaking. -/
def WaldCriterion.calculate (m : DecisionMatrix) : Except JsError CritResult :=
  (collectE (List.range m.strategiesCount) (fun i =>
    match m.data.get? i with
    | none => .error .typeError
    | some _ => .ok (m.getRowMin i))).map (fun values =>
      let maxValue := jsMaxList values
      let strategyIndex := jsIndexOf values maxValue
      { values := values, optimalIndex := strategyIndex, optimalValue := maxValue,
        strategy := strategyNameAt m strategyIndex, type := "wald" })

/-- `MaximaxCriterion.calculate`: per strategy the row maximum; the audit
formula string indexes `matrix.data[i]`, so a missing row is a `TypeError`;
then arg-max with `indexOf` tie-breaking. -/
def MaximaxCriterion.calculate (m : DecisionMatrix) : Except JsError CritResult :=
  (collectE (List.range m.strategiesCount) (fun i =>
    match m.data.get? i with
    | none => .error .typeError
    | some _ => .ok (m.getRowMax i))).map (fun values =>
      let maxValue := jsMaxList values
      let strategyIndex := jsIndexOf values maxValue
      { values := values, optimalIndex := strategyIndex, optimalValue := maxValue,
        strategy := strategyNameAt m strategyIndex, type := "maximax" })

/-- `SavageCriterion.calculate`: column maxima, then per strategy the largest
regret `maxByState[j] - data[i][j]` over the states, then arg-min with
`indexOf` tie-breaking. -/
def SavageCriterion.calculate (m : DecisionMatrix) : Except JsError CritResult :=
  let maxByState := (List.range m.statesCount).map m.getColumnMax
  (collectE (List.range m.strategiesCount) (fun i =>
    foldMaxE (List.range m.statesCount) (fun j =>
      (readCell m.data i j).map (fun cell => (maxByState.getD j .nan).sub cell)))).map
    (fun riskValues =>
      let minRisk := jsMinList riskValues
      let strategyIndex := jsIndexOf riskValues minRisk
      { values := riskValues, optimalIndex := strategyIndex, optimalValue := minRisk,
        strategy := strategyNameAt m strategyIndex, type := "savage" })

/-- `HurwitzCriterion.calculate`: per strategy
`alpha * rowMax + (1 - alpha) * rowMin`; touches rows only through
`getRowMin` / `getRowMax`, so it never throws; then arg-max with `indexOf`
tie-breaking. -/
def HurwitzCriterion.calculate (alpha : ℚ) (m : DecisionMatrix) :
    Except JsError CritResult :=
  let values := (List.range m.strategiesCount).map (fun i =>
    (JSNum.mul (.num alpha) (m.getRowMax i)).add
      (JSNum.mul (.num (1 - alpha)) (m.getRowMin i)))
  let maxValue := jsMaxList values
  let strategyIndex := jsIndexOf values maxValue
  .ok { values := values, optimalIndex := strategyIndex, optimalValue := maxValue,
        strategy := strategyNameAt m strategyIndex, type := "hurwitz" }

/-- One term of the Bayes expectation: `data[i][j] * probabilities[j]`.
A missing row is a `TypeError` when the cell is read; a missing
`probabilities` object is a `TypeError` at `this.probabilities[j]`; a missing
entry (vector shorter than the state count) is a `TypeError` when the audit
trace calls `this.probabilities[j].toFixed(3)` on `undefined`. -/
def bayesCell (probabilities : Option (List ℚ)) (data : List (List ℚ))
    (i j : ℕ) : Except JsError JSNum :=
  match readCell data i j with
  | .error e => .error e
  | .ok cell =>
    match probabilities with
    | none => .error .typeError
    | some ps =>
      match ps.get? j with
      | none => .error .typeError
      | some pj => .ok (cell.mul (JSNum.num pj))

/-- `BayesCriterion.calculate`: per strategy the expectation
`Σ data[i][j] * probabilities[j]` (one `bayesCell` per state); entries of
the vector beyond the state count are never read.  Then arg-max with
`indexOf` tie-breaking. -/
def BayesCriterion.calculate (probabilities : Option (List ℚ))
    (m : DecisionMatrix) : Except JsError CritResult :=
  (collectE (List.range m.strategiesCount) (fun i =>
    sumE (List.range m.statesCount)
      (bayesCell probabilities m.data i))).map (fun values =>
      let maxValue := jsMaxList values
      let strategyIndex := jsIndexOf values maxValue
      { values := values, optimalIndex := strategyIndex, optimalValue := maxValue,
        strategy := strategyNameAt m strategyIndex, type := "bayes" })

/-- `LaplaceCriterion.calculate`: the Bayes expectation with the uniform
probability `1 / statesCount` (which is JavaScript `Infinity` when
`statesCount = 0`, though then the inner loop never runs). -/
def LaplaceCriterion.calculate (m : DecisionMatrix) : Except JsError CritResult :=
  let laplaceProb : JSNum :=
    if m.statesCount = 0 then .posInf else .num (1 / (m.statesCount : ℚ))
  (collectE (List.range m.strategiesCount) (fun i =>
    sumE (List.range m.statesCount) (fun j =>
      (readCell m.data i j).map (fun cell => cell.mul laplaceProb)))).map
    (fun values =>
      let maxValue := jsMaxList values
      let strategyIndex := jsIndexOf values maxValue
      { values := values, optimalIndex := strategyIndex, optimalValue := maxValue,
        strategy := strategyNameAt m strategyIndex, type := "laplace" })

/-- A constructed criterion instance (the parameters a factory call bakes in). -/
inductive Crit where
  | wald
  | maximax
  | savage
  | hurwitz (alpha : ℚ)
  | bayes (probabilities : Option (List ℚ))
  | laplace
deriving DecidableEq, Repr

/-- Dispatch `criterion.calculate(matrix)` over the six classes. -/
def Crit.calculate : Crit → DecisionMatrix → Except JsError CritResult
  | .wald, m => WaldCriterion.calculate m
  | .maximax, m => MaximaxCriterion.calculate m
  | .savage, m => SavageCriterion.calculate m
  | .hurwitz a, m => HurwitzCriterion.calculate a m
  | .bayes p, m => BayesCriterion.calculate p m
  | .laplace, m => LaplaceCriterion.calculate m

/-- The factory's parameter bag; either field may be absent. -/
structure Params where
  alpha : Option ℚ
  probabilities : Option (List ℚ)
deriving DecidableEq, Repr

/-- ASCII `String.prototype.toLowerCase`, sufficient for the six criterion
identifiers the factory recognises. -/
def asciiToLower (s : String) : String :=
  String.mk (s.data.map (fun c =>
    if 'A' ≤ c && c ≤ 'Z' then Char.ofNat (c.toNat + 32) else c))

/-- `CriteriaFactory.createCriterion(type, params)`.  Note the Hurwitz branch
is `params.alpha || 0.5`: JavaScript `||` substitutes the default for every
falsy value, so a provided `alpha` of `0` is replaced by `0.5` as well. -/
def CriteriaFactory.createCriterion (type : String) (params : Params) :
    Except JsError Crit :=
  match asciiToLower type with
  | "wald" => .ok .wald
  | "maximax" => .ok .maximax
  | "savage" => .ok .savage
  | "hurwitz" =>
    .ok (.hurwitz (match params.alpha with
      | none => 1 / 2
      | some a => if a = 0 then 1 / 2 else a))
  | "bayes" =>
    match params.probabilities with
    | none => .error (.thrown "Probabilities required for Bayes criterion")
    | some ps => .ok (.bayes (some ps))
  | "laplace" => .ok .laplace
  | t => .error (.thrown ("Unknown criterion type: " ++ t))

/-! ## ResultsAnalyzer (src/results-analyzer.js)

A recommendation's `id`, `details` and `timestamp` fields carry no logic
used by any operation below (timestamps are wall-clock values), so the
record keeps the `criterion`, `strategy` and `type` fields. -/

structure Recommendation where
  criterion : String
  strategy : String
  type : String
deriving DecidableEq, Repr

structure Analyzer where
  recommendations : List Recommendation
  analysisType : String
deriving DecidableEq, Repr

/-- The freshly constructed analyzer. -/
def Analyzer.fresh : Analyzer := { recommendations := [], analysisType := "" }

/-- `addRecommendation(criterionName, strategy, criterionType)`: the strategy
is `strategy || 'Не определено'`, so a missing or empty string becomes the
sentinel; the record is appended. -/
def Analyzer.addRecommendation (a : Analyzer) (criterionName : String)
    (strategy : Option String) (criterionType : String) : Analyzer :=
  let s := match strategy with
           | none => undetermined
           | some str => if str = "" then undetermined else str
  { a with recommendations :=
      a.recommendations ++ [{ criterion := criterionName, strategy := s,
                              type := criterionType }] }

/-- `frequency[s] = (frequency[s] || 0) + 1` on a plain object: increments the
existing key in place, or appends the key at the end with count 1. -/
def bump : List (String × ℕ) → String → List (String × ℕ)
  | [], s => [(s, 1)]
  | (k, v) :: rest, s =>
    if k = s then (k, v + 1) :: rest else (k, v) :: bump rest s

/-- `getFrequencyAnalysis()`: counts the recommendations whose strategy is
truthy and different from the sentinel, keyed by strategy in insertion order
of first occurrence. -/
def Analyzer.getFrequencyAnalysis (a : Analyzer) : List (String × ℕ) :=
  a.recommendations.foldl (fun freq r =>
    if r.strategy != "" && r.strategy != undetermined
    then bump freq r.strategy else freq) []

/-- Stable insert for the descending-by-count sort. -/
def insertByCountDesc (x : String × ℕ) :
    List (String × ℕ) → List (String × ℕ)
  | [] => [x]
  | y :: ys => if x.2 < y.2 then y :: insertByCountDesc x ys else x :: y :: ys

/-- `entries.sort((a, b) => b[1] - a[1])`: `Array.prototype.sort` is stable
(ECMA-262), and a stable sort's output is uniquely determined by the
comparator, so it is modelled by a stable insertion sort descending on the
count. -/
def sortByCountDesc (entries : List (String × ℕ)) : List (String × ℕ) :=
  entries.foldr insertByCountDesc []

/-- The object `getFinalRecommendation()` returns.  In the empty-frequency
early return the `hasTie` and `alternatives` keys are absent from the object,
modelled by `none`. -/
structure FinalRec where
  strategy : Option String
  frequency : ℕ
  total : ℕ
  percentage : ℤ
  confidence : String
  hasTie : Option Bool
  alternatives : Option (List String)
deriving DecidableEq, Repr

/-- `getFinalRecommendation()`: empty frequency map gives the early soft
result; otherwise sort descending by count (stable), take the first entry as
winner, compute the raw percentage `count / total * 100` over all recorded
recommendations, round it for the `percentage` field, and derive the
confidence from the raw percentage (the source initialises `medium`, then
the `>= 70` check, then the `<= 30` check; both cannot hold at once). -/
def Analyzer.getFinalRecommendation (a : Analyzer) : FinalRec :=
  let frequency := a.getFrequencyAnalysis
  if frequency.isEmpty then
    { strategy := none, frequency := 0, total := a.recommendations.length,
      percentage := 0, confidence := "low", hasTie := none, alternatives := none }
  else
    match sortByCountDesc frequency with
    | [] =>
      -- unreachable: sorting a non-empty list yields a non-empty list
      { strategy := none, frequency := 0, total := a.recommendations.length,
        percentage := 0, confidence := "low", hasTie := none, alternatives := none }
    | (strategy, count) :: rest =>
      let total := a.recommendations.length
      let pct : ℚ := (count : ℚ) / (total : ℚ) * 100
      let confidence :=
        if 70 ≤ pct then "high" else if pct ≤ 30 then "low" else "medium"
      let hasTie : Bool := match rest with
        | [] => false
        | e2 :: _ => e2.2 == count
      let alternatives : List String :=
        if hasTie
        then (((strategy, count) :: rest).filter (fun kv => kv.2 == count)).map
          (fun kv => kv.1)
        else []
      { strategy := some strategy, frequency := count, total := total,
        percentage := jsRound pct, confidence := confidence,
        hasTie := some hasTie, alternatives := some alternatives }

/-- The snapshot `getStatistics()` returns (the wall-clock timestamp is not
modelled). -/
structure Statistics where
  totalCriteria : ℕ
  validRecommendations : ℕ
  uniqueStrategies : ℕ
  mostFrequent : FinalRec
  distribution : List (String × ℕ)
  analysisType : String
deriving DecidableEq, Repr

/-- `getStatistics()`. -/
def Analyzer.getStatistics (a : Analyzer) : Statistics :=
  let valid := a.recommendations.filter (fun r =>
    r.strategy != "" && r.strategy != undetermined)
  let frequency := a.getFrequencyAnalysis
  { totalCriteria := a.recommendations.length,
    validRecommendations := valid.length,
    uniqueStrategies := frequency.length,
    mostFrequent := a.getFinalRecommendation,
    distribution := frequency,
    analysisType := a.analysisType }

/-- `hasConflicts()`: `Math.max` over the frequency counts (`-Infinity` on an
empty map), then more than one count strictly equal (`===`) to it. -/
def Analyzer.hasConflicts (a : Analyzer) : Bool :=
  let values := a.getFrequencyAnalysis.map (fun kv => JSNum.num (kv.2 : ℚ))
  let maxFreq := jsMaxList values
  decide (1 < (values.filter (fun v => jsStrictEq v maxFreq)).length)

/-- `clear()`: discards the recommendations, the timestamp and the mode tag. -/
def Analyzer.clear (_ : Analyzer) : Analyzer :=
  { recommendations := [], analysisType := "" }

/-! ## Generic lemmas about the fallible loops -/

deriving instance DecidableEq for Except

theorem foldE_nil {γ : Type} (g : γ → JSNum → γ) (b : γ)
    (f : ℕ → Except JsError JSNum) : foldE g b [] f = .ok b := rfl

theorem foldE_cons {γ : Type} (g : γ → JSNum → γ) (b : γ) (i : ℕ) (l : List ℕ)
    (f : ℕ → Except JsError JSNum) :
    foldE g b (i :: l) f =
      match f i with
      | .error e => .error e
      | .ok v => foldE g (g b v) l f := by
  cases h : f i <;>
    simp [foldE, List.foldlM, h, Except.map, Bind.bind, Except.bind]

/-- The loop succeeds exactly when every iteration succeeds. -/
theorem foldE_ok_iff {γ : Type} (g : γ → JSNum → γ)
    (f : ℕ → Except JsError JSNum) :
    ∀ (l : List ℕ) (b : γ),
      (∃ w, foldE g b l f = .ok w) ↔ (∀ i ∈ l, ∃ v, f i = .ok v) := by
  intro l
  induction l with
  | nil => intro b; simp [foldE_nil]
  | cons i l ih =>
    intro b
    rw [foldE_cons]
    cases h : f i with
    | error e => simp [h]
    | ok v => simp [h, ih]

/-- A successful loop collects exactly the per-iteration values. -/
theorem collectE_eq_map (f : ℕ → Except JsError JSNum) (vf : ℕ → JSNum) :
    ∀ (l : List ℕ), (∀ i ∈ l, f i = .ok (vf i)) →
      ∀ b : List JSNum,
        foldE (fun acc v => acc ++ [v]) b l f = .ok (b ++ l.map vf) := by
  intro l
  induction l with
  | nil => intro _ b; simp [foldE_nil]
  | cons i l ih =>
    intro h b
    rw [foldE_cons, h i (by simp)]
    show foldE (fun acc v => acc ++ [v]) (b ++ [vf i]) l f =
      Except.ok (b ++ List.map vf (i :: l))
    rw [ih (fun j hj => h j (by simp [hj]))]
    simp

/-- Pointwise equal loop bodies give equal loops. -/
theorem foldE_congr {γ : Type} (g : γ → JSNum → γ)
    (f f' : ℕ → Except JsError JSNum) :
    ∀ (l : List ℕ) (b : γ), (∀ i ∈ l, f i = f' i) →
      foldE g b l f = foldE g b l f' := by
  intro l
  induction l with
  | nil => intro b _; rfl
  | cons i l ih =>
    intro b h
    rw [foldE_cons, foldE_cons, h i (by simp)]
    cases f' i with
    | error e => rfl
    | ok v => exact ih _ (fun j hj => h j (by simp [hj]))

theorem except_map_error_iff {α β : Type} (h : α → β)
    (x : Except JsError α) :
    (∃ e, x.map h = .error e) ↔ (∃ e, x = .error e) := by
  cases x <;> simp [Except.map]

theorem except_error_iff_not_ok {α : Type} (x : Except JsError α) :
    (∃ e, x = .error e) ↔ ¬ ∃ w, x = .ok w := by
  cases x <;> simp

/-! ## Claim C1 -/

/-- A zero-strategy matrix, used to exercise the degenerate-input path. -/
def m1z : DecisionMatrix := ⟨0, 3, [], []⟩

/-- C1 counterexample: a matrix whose single row is present but not fully
populated (one cell instead of two) does NOT yield the soft undetermined
result: Wald evaluates the short row and returns a decided strategy with a
non-empty score vector.  Moreover reading a nonexistent row through the
matrix accessor is a soft `0`, not a fault (the accessor is total). -/
theorem c1_counterexample :
    WaldCriterion.calculate ⟨1, 2, [[5]], ["Регион A"]⟩ =
      .ok { values := [.num 5], optimalIndex := 0, optimalValue := .num 5,
            strategy := "Регион A", type := "wald" } ∧
    (⟨1, 2, [[5]], ["Регион A"]⟩ : DecisionMatrix).getRowMin 7 = .num 0 := by
  constructor <;> decide

/-- C1 (amended): only a matrix with zero strategies yields the soft
undetermined result (`values = []`, `optimalIndex = -1`, sentinel strategy)
from every criterion without faulting; a present-but-short row is evaluated
over its entries instead; and the row/column accessors return a soft `0` for
a nonexistent row or column rather than faulting. -/
theorem c1_amended_theorem (c : Crit) (m : DecisionMatrix) :
    (m.strategiesCount = 0 →
      ∃ r, c.calculate m = .ok r ∧ r.values = [] ∧ r.optimalIndex = -1 ∧
        r.strategy = undetermined) ∧
    (∀ i, m.data.length ≤ i →
      m.getRowMin i = .num 0 ∧ m.getRowMax i = .num 0) ∧
    (∀ j, (∀ row ∈ m.data, row.length ≤ j) → m.getColumnMax j = .num 0) := by
  refine ⟨?_, ?_, ?_⟩
  · intro h
    have hr : List.range m.strategiesCount = [] := by rw [h]; rfl
    have hname : strategyNameAt m (-1) = undetermined := rfl
    cases c with
    | wald =>
      refine ⟨⟨[], -1, .negInf, undetermined, "wald"⟩, ?_, rfl, rfl, rfl⟩
      simp only [Crit.calculate, WaldCriterion.calculate, collectE, hr,
        foldE_nil, Except.map, jsMaxList, jsIndexOf, jsIndexOfAux,
        List.foldl_nil, hname]
    | maximax =>
      refine ⟨⟨[], -1, .negInf, undetermined, "maximax"⟩, ?_, rfl, rfl, rfl⟩
      simp only [Crit.calculate, MaximaxCriterion.calculate, collectE, hr,
        foldE_nil, Except.map, jsMaxList, jsIndexOf, jsIndexOfAux,
        List.foldl_nil, hname]
    | savage =>
      refine ⟨⟨[], -1, .posInf, undetermined, "savage"⟩, ?_, rfl, rfl, rfl⟩
      simp only [Crit.calculate, SavageCriterion.calculate, collectE, hr,
        foldE_nil, Except.map, jsMinList, jsIndexOf, jsIndexOfAux,
        List.foldl_nil, hname]
    | hurwitz a =>
      refine ⟨⟨[], -1, .negInf, undetermined, "hurwitz"⟩, ?_, rfl, rfl, rfl⟩
      simp only [Crit.calculate, HurwitzCriterion.calculate, hr,
        List.map_nil, jsMaxList, jsIndexOf, jsIndexOfAux, List.foldl_nil,
        hname]
    | bayes p =>
      refine ⟨⟨[], -1, .negInf, undetermined, "bayes"⟩, ?_, rfl, rfl, rfl⟩
      simp only [Crit.calculate, BayesCriterion.calculate, collectE, hr,
        foldE_nil, Except.map, jsMaxList, jsIndexOf, jsIndexOfAux,
        List.foldl_nil, hname]
    | laplace =>
      refine ⟨⟨[], -1, .negInf, undetermined, "laplace"⟩, ?_, rfl, rfl, rfl⟩
      simp only [Crit.calculate, LaplaceCriterion.calculate, collectE, hr,
        foldE_nil, Except.map, jsMaxList, jsIndexOf, jsIndexOfAux,
        List.foldl_nil, hname]
  · intro i hi
    have hnone : m.data.get? i = none := List.get?_eq_none.mpr hi
    constructor
    · simp only [DecisionMatrix.getRowMin, hnone]
    · simp only [DecisionMatrix.getRowMax, hnone]
  · intro j hj
    have key : ∀ (l : List ℕ) (b : JSNum), b = JSNum.negInf →
        l.foldl (fun mx i =>
          match m.data.get? i with
          | none => mx
          | some row =>
            if jsGt (cellVal row j) mx then cellVal row j else mx) b
        = JSNum.negInf := by
      intro l
      induction l with
      | nil => intro b hb; simpa using hb
      | cons i l ih =>
        intro b hb
        subst hb
        rw [List.foldl_cons]
        apply ih
        show (match m.data.get? i with
              | none => JSNum.negInf
              | some row =>
                if jsGt (cellVal row j) JSNum.negInf then cellVal row j
                else JSNum.negInf) = JSNum.negInf
        cases hrow : m.data.get? i with
        | none => rfl
        | some row =>
          have hcv : cellVal row j = JSNum.nan := by
            simp only [cellVal, List.get?_eq_none.mpr (hj row (List.get?_mem hrow))]
          show (if jsGt (cellVal row j) JSNum.negInf then cellVal row j
                else JSNum.negInf) = JSNum.negInf
          rw [hcv]
          rfl
    simp only [DecisionMatrix.getColumnMax]
    rw [key (List.range m.strategiesCount) _ rfl]
    rfl

/-- C1 witness: the amended theorem applied to the Wald criterion and a
concrete zero-strategy matrix, and to concrete out-of-range accessor reads. -/
theorem c1_witness :
    (∃ r, Crit.wald.calculate m1z = .ok r ∧ r.values = [] ∧
      r.optimalIndex = -1 ∧ r.strategy = undetermined) ∧
    m1z.getRowMin 0 = .num 0 ∧ m1z.getColumnMax 0 = .num 0 :=
  ⟨(c1_amended_theorem .wald m1z).1 rfl,
   ((c1_amended_theorem .wald m1z).2.1 0 (by decide)).1,
   (c1_amended_theorem .wald m1z).2.2 0 (by decide)⟩

/-! ## Claim C2 -/

/-- A 1×1 matrix used to exercise Bayes with an over-long probability vector. -/
def m2c : DecisionMatrix := ⟨1, 1, [[2]], ["Регион A"]⟩

/-- A 1×2 fully populated matrix used for the C2 witness. -/
def m2w : DecisionMatrix := ⟨1, 2, [[1, 2]], ["Регион A"]⟩

/-- C2 counterexample: a probability vector of length 2 on a matrix with
N = 1 states (length ≠ N) does NOT make Bayes fault: the extra entry is
ignored and a decided result is returned. -/
theorem c2_counterexample :
    BayesCriterion.calculate (some [3, 4]) m2c =
      .ok { values := [.num 6], optimalIndex := 0, optimalValue := .num 6,
            strategy := "Регион A", type := "bayes" } := by
  norm_num +decide [BayesCriterion.calculate, m2c, bayesCell, collectE, sumE,
    foldE, readCell, cellVal, JSNum.mul, JSNum.add, jsMaxList, jsMax2, jsGt,
    jsIndexOf, jsIndexOfAux, jsStrictEq, strategyNameAt, Except.map,
    List.range_succ, List.foldlM, undetermined]

/-- C2 (amended): on a fully populated matrix, Bayes `calculate` faults
exactly when it actually dereferences the probability vector beyond its end:
with at least one strategy and one state it faults iff the vector is missing
or strictly shorter than N (a vector longer than N does not fault, its extra
entries are never read); and on a zero-strategy matrix it never faults,
returning the soft undetermined result even for a malformed vector. -/
theorem c2_amended_theorem (m : DecisionMatrix) (p : Option (List ℚ))
    (hlen : m.data.length = m.strategiesCount)
    (_hrows : ∀ row ∈ m.data, row.length = m.statesCount) :
    (1 ≤ m.strategiesCount → 1 ≤ m.statesCount →
      ((∃ e, BayesCriterion.calculate p m = .error e) ↔
        (p = none ∨ ∃ ps, p = some ps ∧ ps.length < m.statesCount))) ∧
    (m.strategiesCount = 0 →
      ∃ r, BayesCriterion.calculate p m = .ok r ∧ r.values = [] ∧
        r.optimalIndex = -1 ∧ r.strategy = undetermined) := by
  constructor
  · intro hS hN
    have hcell : ∀ i ∈ List.range m.strategiesCount, ∀ j,
        ((∃ v, bayesCell p m.data i j = .ok v) ↔
          ∃ ps, p = some ps ∧ j < ps.length) := by
      intro i hi j
      have hne : m.data.get? i ≠ none := by
        intro hcontra
        have h1 := List.get?_eq_none.mp hcontra
        have h2 := List.mem_range.mp hi
        omega
      obtain ⟨row, hrow⟩ := Option.ne_none_iff_exists'.mp hne
      simp only [bayesCell, readCell, hrow]
      cases p with
      | none => simp
      | some ps =>
        cases hg : ps.get? j with
        | none =>
          have hge : ps.length ≤ j := List.get?_eq_none.mp hg
          simp only [hg]
          constructor
          · rintro ⟨v, hv⟩
            exact Except.noConfusion hv
          · rintro ⟨ps', hps', hlt⟩
            injection hps' with h
            subst h
            omega
        | some pj =>
          have hlt : j < ps.length := by
            obtain ⟨h, -⟩ := List.get?_eq_some.mp hg
            exact h
          simp only [hg]
          constructor
          · intro _
            exact ⟨ps, rfl, hlt⟩
          · intro _
            exact ⟨_, rfl⟩
    simp only [BayesCriterion.calculate, collectE, sumE]
    rw [except_map_error_iff, except_error_iff_not_ok]
    simp only [foldE_ok_iff]
    constructor
    · intro hne
      cases hp : p with
      | none => exact Or.inl rfl
      | some ps =>
        refine Or.inr ⟨ps, rfl, ?_⟩
        by_contra hge
        refine hne (fun i hi j hj => (hcell i hi j).mpr ⟨ps, hp, ?_⟩)
        have := List.mem_range.mp hj
        omega
    · intro h hall
      cases h with
      | inl hnone =>
        obtain ⟨ps, hps, -⟩ := (hcell 0 (List.mem_range.mpr hS) 0).mp
          (hall 0 (List.mem_range.mpr hS) 0 (List.mem_range.mpr hN))
        rw [hnone] at hps
        exact Option.noConfusion hps
      | inr h =>
        obtain ⟨ps, hps, hlt⟩ := h
        obtain ⟨ps', hps', hlt'⟩ := (hcell 0 (List.mem_range.mpr hS) ps.length).mp
          (hall 0 (List.mem_range.mpr hS) ps.length (List.mem_range.mpr hlt))
        rw [hps] at hps'
        injection hps' with h
        subst h
        omega
  · intro h
    have hr : List.range m.strategiesCount = [] := by rw [h]; rfl
    refine ⟨⟨[], -1, .negInf, undetermined, "bayes"⟩, ?_, rfl, rfl, rfl⟩
    simp only [BayesCriterion.calculate, collectE, hr, foldE_nil, Except.map,
      jsMaxList, jsIndexOf, jsIndexOfAux, List.foldl_nil]
    rfl

/-- C2 witness: the amended theorem applied to a concrete fully populated
1×2 matrix with a too-short vector, and to a concrete zero-strategy matrix. -/
theorem c2_witness :
    ((∃ e, BayesCriterion.calculate (some [5]) m2w = .error e) ↔
      ((some [5] : Option (List ℚ)) = none ∨
        ∃ ps, (some [5] : Option (List ℚ)) = some ps ∧
          ps.length < m2w.statesCount)) ∧
    (∃ r, BayesCriterion.calculate (some [5])
        (⟨0, 2, [], []⟩ : DecisionMatrix) = .ok r ∧ r.values = [] ∧
      r.optimalIndex = -1 ∧ r.strategy = undetermined) :=
  ⟨(c2_amended_theorem m2w (some [5]) rfl (by decide)).1 (by decide) (by decide),
   (c2_amended_theorem ⟨0, 2, [], []⟩ (some [5]) rfl (by decide)).2 rfl⟩

/-! ## Claim C8 -/

/-- C8 (code bug): the factory's Hurwitz branch is `params.alpha || 0.5`,
and JavaScript `||` substitutes the default for every falsy value, so a
provided `alpha = 0` (a legal value, per the spec `α ∈ [0,1]`) is silently
replaced by `0.5`; the absent case does default to `0.5` as specified. -/
theorem c8_theorem :
    CriteriaFactory.createCriterion "hurwitz" ⟨some 0, none⟩ =
      .ok (.hurwitz (1 / 2)) ∧
    CriteriaFactory.createCriterion "hurwitz" ⟨none, none⟩ =
      .ok (.hurwitz (1 / 2)) ∧
    (1 / 2 : ℚ) ≠ 0 := by
  refine ⟨rfl, rfl, by norm_num⟩

/-! ## Claim C7 -/

/-- `idx` is the result `indexOf`-tie-breaking should produce for value `v`
in `vs`: either `-1` with no strictly-equal element at all, or the position
of a strictly-equal element such that no earlier element is strictly equal. -/
def isFirstMatch (vs : List JSNum) (v : JSNum) (idx : ℤ) : Prop :=
  if idx < 0 then ∀ x ∈ vs, jsStrictEq x v = false
  else ∃ x, vs.get? idx.toNat = some x ∧ jsStrictEq x v = true ∧
       ∀ y ∈ vs.take idx.toNat, jsStrictEq y v = false

theorem jsIndexOfAux_nonneg_or (v : JSNum) :
    ∀ (l : List JSNum) (k : ℕ),
      jsIndexOfAux v l k = -1 ∨ (k : ℤ) ≤ jsIndexOfAux v l k := by
  intro l
  induction l with
  | nil => intro k; exact Or.inl rfl
  | cons x xs ih =>
    intro k
    by_cases hx : jsStrictEq x v
    · right
      simp [jsIndexOfAux, hx]
    · rcases ih (k + 1) with h | h
      · left; simpa [jsIndexOfAux, hx] using h
      · right
        simp only [jsIndexOfAux, hx, Bool.false_eq_true, if_false]
        omega

theorem jsIndexOfAux_succ (v : JSNum) :
    ∀ (l : List JSNum) (k : ℕ),
      jsIndexOfAux v l (k + 1) =
        if jsIndexOfAux v l k = -1 then -1 else jsIndexOfAux v l k + 1 := by
  intro l
  induction l with
  | nil => intro k; rfl
  | cons x xs ih =>
    intro k
    by_cases hx : jsStrictEq x v
    · have hk : ¬ ((k : ℤ) = -1) := by omega
      simp [jsIndexOfAux, hx, hk]
    · simp only [jsIndexOfAux, hx, Bool.false_eq_true, if_false]
      exact ih (k + 1)

theorem jsIndexOf_isFirstMatch (v : JSNum) :
    ∀ vs : List JSNum, isFirstMatch vs v (jsIndexOf vs v) := by
  intro vs
  induction vs with
  | nil =>
    simp [isFirstMatch, jsIndexOf, jsIndexOfAux]
  | cons x xs ih =>
    by_cases hx : jsStrictEq x v
    · have h0 : jsIndexOf (x :: xs) v = 0 := by simp [jsIndexOf, jsIndexOfAux, hx]
      rw [h0]
      simp only [isFirstMatch, if_neg (by omega : ¬ (0 : ℤ) < 0)]
      exact ⟨x, rfl, hx, by simp [Int.toNat_zero]⟩
    · have hstep : jsIndexOf (x :: xs) v =
          if jsIndexOf xs v = -1 then -1 else jsIndexOf xs v + 1 := by
        simp only [jsIndexOf, jsIndexOfAux, hx, Bool.false_eq_true, if_false]
        exact jsIndexOfAux_succ v xs 0
      by_cases hbase : jsIndexOf xs v = -1
      · rw [hstep, if_pos hbase]
        simp only [isFirstMatch, if_pos (by omega : (-1 : ℤ) < 0)]
        intro y hy
        rcases List.mem_cons.mp hy with rfl | hy'
        · exact Bool.not_eq_true _ ▸ (by simpa using hx)
        · have := ih
          rw [hbase] at this
          simp only [isFirstMatch, if_pos (by omega : (-1 : ℤ) < 0)] at this
          exact this y hy'
      · have hnn : (0 : ℤ) ≤ jsIndexOf xs v := by
          rcases jsIndexOfAux_nonneg_or v xs 0 with h | h
          · exact absurd h hbase
          · exact h
        rw [hstep, if_neg hbase]
        have ihp := ih
        simp only [isFirstMatch, if_neg (by omega : ¬ jsIndexOf xs v < 0)] at ihp
        obtain ⟨y, hy, hyeq, hyfirst⟩ := ihp
        simp only [isFirstMatch, if_neg (by omega : ¬ jsIndexOf xs v + 1 < 0)]
        have htn : (jsIndexOf xs v + 1).toNat = (jsIndexOf xs v).toNat + 1 := by
          omega
        refine ⟨y, ?_, hyeq, ?_⟩
        · rw [htn]
          simpa using hy
        · rw [htn]
          intro z hz
          rcases List.mem_cons.mp (List.mem_of_mem_take hz) with rfl | _
          · by_cases hz0 : z ∈ List.take (jsIndexOf xs v).toNat xs
            · exact hyfirst z hz0
            · simpa using hx
          · have : z ∈ x :: List.take (jsIndexOf xs v).toNat xs := by
              simpa [List.take_cons] using hz
            rcases List.mem_cons.mp this with rfl | hz'
            · simpa using hx
            · exact hyfirst z hz'

theorem except_map_ok {α β : Type} (f : α → β) (x : Except JsError α) (y : β)
    (h : x.map f = .ok y) : ∃ w, x = .ok w ∧ y = f w := by
  cases x with
  | error e => simp [Except.map] at h
  | ok w =>
    refine ⟨w, rfl, ?_⟩
    simpa [Except.map] using h.symm

/-- C7: every criterion variant reports as `optimalIndex` exactly
`values.indexOf(optimalValue)`: the first strategy index (in row order)
whose score is strictly equal to the optimal score, `-1` when none is
(e.g. a NaN optimum); the optimal score itself is the `Math.min` of the
scores for Savage and the `Math.max` for the other five variants. -/
theorem c7_theorem (c : Crit) (m : DecisionMatrix) (r : CritResult)
    (h : c.calculate m = .ok r) :
    r.optimalIndex = jsIndexOf r.values r.optimalValue ∧
    isFirstMatch r.values r.optimalValue r.optimalIndex ∧
    r.optimalValue = (match c with
      | .savage => jsMinList r.values
      | _ => jsMaxList r.values) := by
  cases c with
  | wald =>
    simp only [Crit.calculate, WaldCriterion.calculate] at h
    obtain ⟨vs, -, hr⟩ := except_map_ok _ _ _ h
    subst hr
    exact ⟨rfl, jsIndexOf_isFirstMatch _ _, rfl⟩
  | maximax =>
    simp only [Crit.calculate, MaximaxCriterion.calculate] at h
    obtain ⟨vs, -, hr⟩ := except_map_ok _ _ _ h
    subst hr
    exact ⟨rfl, jsIndexOf_isFirstMatch _ _, rfl⟩
  | savage =>
    simp only [Crit.calculate, SavageCriterion.calculate] at h
    obtain ⟨vs, -, hr⟩ := except_map_ok _ _ _ h
    subst hr
    exact ⟨rfl, jsIndexOf_isFirstMatch _ _, rfl⟩
  | hurwitz a =>
    simp only [Crit.calculate, HurwitzCriterion.calculate] at h
    injection h with h
    subst h
    exact ⟨rfl, jsIndexOf_isFirstMatch _ _, rfl⟩
  | bayes p =>
    simp only [Crit.calculate, BayesCriterion.calculate] at h
    obtain ⟨vs, -, hr⟩ := except_map_ok _ _ _ h
    subst hr
    exact ⟨rfl, jsIndexOf_isFirstMatch _ _, rfl⟩
  | laplace =>
    simp only [Crit.calculate, LaplaceCriterion.calculate] at h
    obtain ⟨vs, -, hr⟩ := except_map_ok _ _ _ h
    subst hr
    exact ⟨rfl, jsIndexOf_isFirstMatch _ _, rfl⟩

/-- A 2×1 matrix whose two strategies tie, used for the C7 witness. -/
def m7w : DecisionMatrix := ⟨2, 1, [[3], [3]], ["Регион A", "Регион B"]⟩

/-- C7 witness: on a matrix where both strategies attain the optimal Wald
score, the reported index is the first one. -/
theorem c7_witness :
    ({ values := [JSNum.num 3, JSNum.num 3], optimalIndex := 0,
       optimalValue := JSNum.num 3, strategy := "Регион A",
       type := "wald" } : CritResult).optimalIndex =
      jsIndexOf [JSNum.num 3, JSNum.num 3] (JSNum.num 3) ∧
    isFirstMatch [JSNum.num 3, JSNum.num 3] (JSNum.num 3) 0 ∧
    (JSNum.num 3 : JSNum) = jsMaxList [JSNum.num 3, JSNum.num 3] :=
  c7_theorem .wald m7w
    { values := [JSNum.num 3, JSNum.num 3], optimalIndex := 0,
      optimalValue := JSNum.num 3, strategy := "Регион A", type := "wald" }
    (by decide)

/-! ## Claim C5 -/

theorem foldl_jsMin2_num : ∀ (l : List ℚ) (c : ℚ),
    ∃ w : ℚ, (l.map JSNum.num).foldl jsMin2 (JSNum.num c) = JSNum.num w := by
  intro l
  induction l with
  | nil => intro c; exact ⟨c, rfl⟩
  | cons q l ih =>
    intro c
    rw [List.map_cons, List.foldl_cons]
    have hstep : jsMin2 (JSNum.num c) (JSNum.num q) =
        JSNum.num (if q < c then q else c) := by
      by_cases h : q < c <;> simp [jsMin2, jsGt, h]
    rw [hstep]
    exact ih _

theorem foldl_jsMax2_num : ∀ (l : List ℚ) (c : ℚ),
    ∃ w : ℚ, (l.map JSNum.num).foldl jsMax2 (JSNum.num c) = JSNum.num w := by
  intro l
  induction l with
  | nil => intro c; exact ⟨c, rfl⟩
  | cons q l ih =>
    intro c
    rw [List.map_cons, List.foldl_cons]
    have hstep : jsMax2 (JSNum.num c) (JSNum.num q) =
        JSNum.num (if c < q then q else c) := by
      by_cases h : c < q <;> simp [jsMax2, jsGt, h]
    rw [hstep]
    exact ih _

/-- On a present non-empty row both row accessors return a finite number. -/
theorem getRow_num (m : DecisionMatrix) (i : ℕ) (row : List ℚ)
    (hr : m.data.get? i = some row) (hrne : row ≠ []) :
    (∃ a : ℚ, m.getRowMin i = JSNum.num a) ∧
    (∃ b : ℚ, m.getRowMax i = JSNum.num b) := by
  obtain ⟨q, qs, rfl⟩ := List.exists_cons_of_ne_nil hrne
  constructor
  · simp only [DecisionMatrix.getRowMin, hr, jsMinList, List.map_cons,
      List.foldl_cons]
    have h2 : jsMin2 JSNum.posInf (JSNum.num q) = JSNum.num q := rfl
    rw [h2]
    exact foldl_jsMin2_num qs q
  · simp only [DecisionMatrix.getRowMax, hr, jsMaxList, List.map_cons,
      List.foldl_cons]
    have h2 : jsMax2 JSNum.negInf (JSNum.num q) = JSNum.num q := rfl
    rw [h2]
    exact foldl_jsMax2_num qs q

/-- A 1×0 matrix with a present empty row: `Math.min()` of the empty row is
`Infinity`, so Wald scores `[Infinity]`, while Hurwitz with `α = 0` computes
`0 * (-Infinity) + 1 * Infinity = NaN`. -/
def m5c : DecisionMatrix := ⟨1, 0, [[]], ["Регион A"]⟩

/-- C5 counterexample: on the legal degenerate matrix `m5c` (one strategy,
zero states), Hurwitz(α=0) and Wald produce different score vectors
(`[NaN]` vs `[Infinity]`), and Hurwitz(α=1) likewise differs from Maximax. -/
theorem c5_counterexample :
    (WaldCriterion.calculate m5c).map CritResult.values = .ok [.posInf] ∧
    (HurwitzCriterion.calculate 0 m5c).map CritResult.values = .ok [.nan] ∧
    (HurwitzCriterion.calculate 0 m5c).map CritResult.values ≠
      (WaldCriterion.calculate m5c).map CritResult.values ∧
    (MaximaxCriterion.calculate m5c).map CritResult.values = .ok [.negInf] ∧
    (HurwitzCriterion.calculate 1 m5c).map CritResult.values = .ok [.nan] ∧
    (HurwitzCriterion.calculate 1 m5c).map CritResult.values ≠
      (MaximaxCriterion.calculate m5c).map CritResult.values := by
  have h1 : (WaldCriterion.calculate m5c).map CritResult.values =
      .ok [.posInf] := by decide
  have h4 : (MaximaxCriterion.calculate m5c).map CritResult.values =
      .ok [.negInf] := by decide
  have h2 : (HurwitzCriterion.calculate 0 m5c).map CritResult.values =
      .ok [.nan] := by
    simp +decide [HurwitzCriterion.calculate, m5c, DecisionMatrix.getRowMin,
      DecisionMatrix.getRowMax, jsMinList, jsMaxList, JSNum.mul, JSNum.add,
      jsMax2, jsMin2, jsGt, jsIndexOf, jsIndexOfAux, jsStrictEq, Except.map,
      strategyNameAt, List.range_succ]
  have h5 : (HurwitzCriterion.calculate 1 m5c).map CritResult.values =
      .ok [.nan] := by
    simp +decide [HurwitzCriterion.calculate, m5c, DecisionMatrix.getRowMin,
      DecisionMatrix.getRowMax, jsMinList, jsMaxList, JSNum.mul, JSNum.add,
      jsMax2, jsMin2, jsGt, jsIndexOf, jsIndexOfAux, jsStrictEq, Except.map,
      strategyNameAt, List.range_succ]
  refine ⟨h1, h2, ?_, h4, h5, ?_⟩
  · rw [h1, h2]; decide
  · rw [h4, h5]; decide

/-- C5 (amended): on every matrix whose rows are all present and non-empty
(in particular every fully populated matrix with at least one state),
Hurwitz with `α = 0` produces exactly Wald's score vector and Hurwitz with
`α = 1` exactly Maximax's, element-wise. -/
theorem c5_amended_theorem (m : DecisionMatrix)
    (hlen : m.data.length = m.strategiesCount)
    (hne : ∀ row ∈ m.data, row ≠ []) :
    (HurwitzCriterion.calculate 0 m).map CritResult.values =
      (WaldCriterion.calculate m).map CritResult.values ∧
    (HurwitzCriterion.calculate 1 m).map CritResult.values =
      (MaximaxCriterion.calculate m).map CritResult.values := by
  have hrow : ∀ i ∈ List.range m.strategiesCount,
      ∃ row, m.data.get? i = some row ∧ row ≠ [] := by
    intro i hi
    have hlt : i < m.data.length := by
      rw [hlen]; exact List.mem_range.mp hi
    have hne2 : m.data.get? i ≠ none := by
      intro hc
      have := List.get?_eq_none.mp hc
      omega
    obtain ⟨row, hr⟩ := Option.ne_none_iff_exists'.mp hne2
    exact ⟨row, hr, hne row (List.get?_mem hr)⟩
  have hwald : collectE (List.range m.strategiesCount) (fun i =>
      match m.data.get? i with
      | none => .error .typeError
      | some _ => .ok (m.getRowMin i)) =
      .ok ((List.range m.strategiesCount).map (fun i => m.getRowMin i)) := by
    have := collectE_eq_map (fun i =>
      match m.data.get? i with
      | none => .error .typeError
      | some _ => .ok (m.getRowMin i)) (fun i => m.getRowMin i)
      (List.range m.strategiesCount) (fun i hi => by
        obtain ⟨row, hr, -⟩ := hrow i hi
        show (match m.data.get? i with
              | none => Except.error JsError.typeError
              | some _ => Except.ok (m.getRowMin i)) =
          Except.ok (m.getRowMin i)
        rw [hr]) []
    simpa [collectE] using this
  have hmaximax : collectE (List.range m.strategiesCount) (fun i =>
      match m.data.get? i with
      | none => .error .typeError
      | some _ => .ok (m.getRowMax i)) =
      .ok ((List.range m.strategiesCount).map (fun i => m.getRowMax i)) := by
    have := collectE_eq_map (fun i =>
      match m.data.get? i with
      | none => .error .typeError
      | some _ => .ok (m.getRowMax i)) (fun i => m.getRowMax i)
      (List.range m.strategiesCount) (fun i hi => by
        obtain ⟨row, hr, -⟩ := hrow i hi
        show (match m.data.get? i with
              | none => Except.error JsError.typeError
              | some _ => Except.ok (m.getRowMax i)) =
          Except.ok (m.getRowMax i)
        rw [hr]) []
    simpa [collectE] using this
  constructor
  · simp only [HurwitzCriterion.calculate, WaldCriterion.calculate, hwald,
      Except.map]
    congr 1
    apply List.map_congr_left
    intro i hi
    obtain ⟨row, hr, hrne⟩ := hrow i hi
    obtain ⟨⟨a, ha⟩, ⟨b, hb⟩⟩ := getRow_num m i row hr hrne
    rw [ha, hb]
    show JSNum.num (0 * b + (1 - 0) * a) = JSNum.num a
    norm_num
  · simp only [HurwitzCriterion.calculate, MaximaxCriterion.calculate,
      hmaximax, Except.map]
    congr 1
    apply List.map_congr_left
    intro i hi
    obtain ⟨row, hr, hrne⟩ := hrow i hi
    obtain ⟨⟨a, ha⟩, ⟨b, hb⟩⟩ := getRow_num m i row hr hrne
    rw [ha, hb]
    show JSNum.num (1 * b + (1 - 1) * a) = JSNum.num b
    norm_num

/-- A fully populated 2×2 matrix for the C5 witness. -/
def m5w : DecisionMatrix := ⟨2, 2, [[1, 2], [3, 4]], ["Регион A", "Регион B"]⟩

/-- C5 witness: the amended equivalences hold at a concrete fully populated
matrix. -/
theorem c5_witness :
    (HurwitzCriterion.calculate 0 m5w).map CritResult.values =
      (WaldCriterion.calculate m5w).map CritResult.values ∧
    (HurwitzCriterion.calculate 1 m5w).map CritResult.values =
      (MaximaxCriterion.calculate m5w).map CritResult.values :=
  c5_amended_theorem m5w rfl (by decide)

/-! ## Claim C6 -/

theorem map_values_congr {x y : Except JsError (List JSNum)}
    (f g : List JSNum → CritResult)
    (hf : ∀ vs, (f vs).values = vs) (hg : ∀ vs, (g vs).values = vs)
    (hxy : x = y) :
    (x.map f).map CritResult.values = (y.map g).map CritResult.values := by
  subst hxy
  cases x with
  | error e => rfl
  | ok vs => simp [Except.map, hf, hg]

/-- C6: the Laplace score vector is exactly the Bayes score vector under the
uniform probability vector `1/N` — the two run the very same arithmetic, so
they agree exactly (in particular within any tolerance), and they fault on
exactly the same degenerate matrices. -/
theorem c6_theorem (m : DecisionMatrix) (hN : 1 ≤ m.statesCount) :
    (LaplaceCriterion.calculate m).map CritResult.values =
      (BayesCriterion.calculate
        (some (List.replicate m.statesCount (1 / (m.statesCount : ℚ)))) m).map
        CritResult.values := by
  have hnz : ¬ m.statesCount = 0 := by omega
  have hinner : ∀ i ∈ List.range m.strategiesCount,
      sumE (List.range m.statesCount) (fun j =>
        (readCell m.data i j).map (fun cell =>
          cell.mul (if m.statesCount = 0 then JSNum.posInf
            else JSNum.num (1 / (m.statesCount : ℚ))))) =
      sumE (List.range m.statesCount)
        (bayesCell (some (List.replicate m.statesCount
          (1 / (m.statesCount : ℚ)))) m.data i) := by
    intro i _
    apply foldE_congr
    intro j hj
    have hjN : j < m.statesCount := List.mem_range.mp hj
    have hrep : (List.replicate m.statesCount
        (1 / (m.statesCount : ℚ))).get? j =
        some (1 / (m.statesCount : ℚ)) := by
      rw [List.get?_eq_getElem?, List.getElem?_replicate, if_pos hjN]
    show (readCell m.data i j).map (fun cell =>
        cell.mul (if m.statesCount = 0 then JSNum.posInf
          else JSNum.num (1 / (m.statesCount : ℚ)))) =
      bayesCell (some (List.replicate m.statesCount
        (1 / (m.statesCount : ℚ)))) m.data i j
    cases hc : readCell m.data i j with
    | error e => simp [bayesCell, hc, Except.map]
    | ok cell =>
      simp only [Except.map, bayesCell, hc, if_neg hnz]
      rw [hrep]
  have hloop : collectE (List.range m.strategiesCount) (fun i =>
      sumE (List.range m.statesCount) (fun j =>
        (readCell m.data i j).map (fun cell =>
          cell.mul (if m.statesCount = 0 then JSNum.posInf
            else JSNum.num (1 / (m.statesCount : ℚ)))))) =
    collectE (List.range m.strategiesCount) (fun i =>
      sumE (List.range m.statesCount)
        (bayesCell (some (List.replicate m.statesCount
          (1 / (m.statesCount : ℚ)))) m.data i)) := by
    apply foldE_congr
    exact hinner
  exact map_values_congr _ _ (fun vs => rfl) (fun vs => rfl) hloop

/-- A fully populated 2×2 matrix for the C6 witness. -/
def m6w : DecisionMatrix := ⟨2, 2, [[1, 2], [3, 4]], ["Регион A", "Регион B"]⟩

/-- C6 witness: the Laplace/Bayes(uniform) agreement at a concrete matrix. -/
theorem c6_witness :
    (LaplaceCriterion.calculate m6w).map CritResult.values =
      (BayesCriterion.calculate (some (List.replicate m6w.statesCount
        (1 / (m6w.statesCount : ℚ)))) m6w).map CritResult.values :=
  c6_theorem m6w (by decide)

/-! ## Claim C9 -/

theorem bump_sum : ∀ (l : List (String × ℕ)) (s : String),
    ((bump l s).map (fun kv => kv.2)).sum = (l.map (fun kv => kv.2)).sum + 1 := by
  intro l
  induction l with
  | nil => intro s; simp [bump]
  | cons kv rest ih =>
    intro s
    obtain ⟨k, v⟩ := kv
    by_cases h : k = s
    · simp [bump, h]
      omega
    · simp [bump, h, ih s]
      omega

theorem bump_pos : ∀ (l : List (String × ℕ)) (s : String),
    (∀ kv ∈ l, kv.2 ≠ 0) → ∀ kv ∈ bump l s, kv.2 ≠ 0 := by
  intro l
  induction l with
  | nil =>
    intro s _ kv hkv
    simp [bump] at hkv
    subst hkv
    simp
  | cons hd rest ih =>
    intro s hl kv hkv
    obtain ⟨k, v⟩ := hd
    by_cases h : k = s
    · simp only [bump, h, if_pos rfl] at hkv
      rcases List.mem_cons.mp hkv with rfl | hkv'
      · simp
      · exact hl kv (List.mem_cons_of_mem _ hkv')
    · simp only [bump, if_neg h] at hkv
      rcases List.mem_cons.mp hkv with rfl | hkv'
      · exact hl (k, v) (List.mem_cons_self _ _)
      · exact ih s (fun kv2 h2 => hl kv2 (List.mem_cons_of_mem _ h2)) kv hkv'

theorem freq_fold_sum : ∀ (recs : List Recommendation)
    (acc : List (String × ℕ)),
    (((recs.foldl (fun freq r =>
        if r.strategy != "" && r.strategy != undetermined
        then bump freq r.strategy else freq) acc).map (fun kv => kv.2)).sum =
      ((acc.map (fun kv => kv.2)).sum +
        (recs.filter (fun r =>
          r.strategy != "" && r.strategy != undetermined)).length)) := by
  intro recs
  induction recs with
  | nil => intro acc; simp
  | cons r recs ih =>
    intro acc
    rw [List.foldl_cons]
    by_cases h : (r.strategy != "" && r.strategy != undetermined) = true
    · rw [if_pos h]
      rw [ih (bump acc r.strategy)]
      rw [bump_sum]
      rw [List.filter_cons, if_pos h]
      simp
      omega
    · rw [if_neg h]
      rw [ih acc]
      rw [List.filter_cons, if_neg h]

theorem freq_fold_pos : ∀ (recs : List Recommendation)
    (acc : List (String × ℕ)),
    (∀ kv ∈ acc, kv.2 ≠ 0) →
    ∀ kv ∈ recs.foldl (fun freq r =>
        if r.strategy != "" && r.strategy != undetermined
        then bump freq r.strategy else freq) acc, kv.2 ≠ 0 := by
  intro recs
  induction recs with
  | nil => intro acc h; simpa using h
  | cons r recs ih =>
    intro acc h
    rw [List.foldl_cons]
    by_cases hr : (r.strategy != "" && r.strategy != undetermined) = true
    · rw [if_pos hr]
      exact ih _ (bump_pos acc r.strategy h)
    · rw [if_neg hr]
      exact ih _ h

theorem filter_length_split {α : Type} (p : α → Bool) :
    ∀ l : List α, (l.filter p).length + (l.filter (fun x => !(p x))).length =
      l.length := by
  intro l
  induction l with
  | nil => rfl
  | cons x xs ih =>
    by_cases h : p x = true
    · simp [List.filter_cons, h]
      omega
    · simp [List.filter_cons, h]
      omega

/-- The aggregator obtained by replaying a sequence of `addRecommendation`
calls (criterion name, strategy, criterion type) on a fresh instance. -/
def analyzerOfInputs (inputs : List (String × Option String × String)) :
    Analyzer :=
  inputs.foldl (fun st inp => st.addRecommendation inp.1 inp.2.1 inp.2.2)
    Analyzer.fresh

/-- C9: for every sequence of added recommendations, the counts of the
frequency map sum to `validRecommendations` from `getStatistics` (which is
the total number of recommendations minus the undetermined ones), and no
strategy is present in the map with count 0. -/
theorem c9_theorem (inputs : List (String × Option String × String)) :
    (((analyzerOfInputs inputs).getFrequencyAnalysis.map
        (fun kv => kv.2)).sum =
      (analyzerOfInputs inputs).getStatistics.validRecommendations) ∧
    (∀ kv ∈ (analyzerOfInputs inputs).getFrequencyAnalysis, kv.2 ≠ 0) ∧
    (analyzerOfInputs inputs).getStatistics.validRecommendations =
      (analyzerOfInputs inputs).recommendations.length -
        ((analyzerOfInputs inputs).recommendations.filter (fun r =>
          !(r.strategy != "" && r.strategy != undetermined))).length := by
  set a := analyzerOfInputs inputs with ha
  refine ⟨?_, ?_, ?_⟩
  · rw [show a.getStatistics.validRecommendations =
      (a.recommendations.filter (fun r =>
        r.strategy != "" && r.strategy != undetermined)).length from rfl]
    have := freq_fold_sum a.recommendations []
    simpa [Analyzer.getFrequencyAnalysis] using this
  · exact freq_fold_pos a.recommendations [] (by simp)
  · have := filter_length_split
      (fun r => r.strategy != "" && r.strategy != undetermined)
      a.recommendations
    rw [show a.getStatistics.validRecommendations =
      (a.recommendations.filter (fun r =>
        r.strategy != "" && r.strategy != undetermined)).length from rfl]
    omega

/-! ## Claim C10 -/

theorem freq_of_all_undetermined : ∀ (recs : List Recommendation),
    (∀ r ∈ recs, r.strategy = undetermined) →
    recs.foldl (fun freq r =>
      if r.strategy != "" && r.strategy != undetermined
      then bump freq r.strategy else freq) [] = [] := by
  intro recs
  induction recs with
  | nil => intro _; rfl
  | cons r recs ih =>
    intro h
    rw [List.foldl_cons]
    have hr : (r.strategy != "" && r.strategy != undetermined) = false := by
      rw [h r (List.mem_cons_self _ _)]
      simp [bne]
    rw [if_neg (by simp [hr])]
    exact ih (fun r2 h2 => h r2 (List.mem_cons_of_mem _ h2))

/-- C10: whenever every recorded recommendation is undetermined — in
particular on a freshly constructed or just-cleared aggregator —
`hasConflicts()` returns `false` and does not fault on the empty frequency
map (`Math.max()` of nothing is `-Infinity`, which no count is strictly
equal to). -/
theorem c10_theorem (a : Analyzer)
    (h : ∀ r ∈ a.recommendations, r.strategy = undetermined) :
    a.hasConflicts = false ∧ a.clear.hasConflicts = false ∧
    Analyzer.fresh.hasConflicts = false := by
  have hfreq : a.getFrequencyAnalysis = [] :=
    freq_of_all_undetermined a.recommendations h
  refine ⟨?_, rfl, rfl⟩
  simp [Analyzer.hasConflicts, hfreq, jsMaxList]

/-- C10 witness: an aggregator holding one undetermined recommendation
(strategy coerced to the sentinel) reports no conflicts. -/
theorem c10_witness :
    (Analyzer.fresh.addRecommendation "Критерий Вальда" none "wald").hasConflicts
      = false ∧
    (Analyzer.fresh.addRecommendation "Критерий Вальда" none
      "wald").clear.hasConflicts = false ∧
    Analyzer.fresh.hasConflicts = false :=
  c10_theorem _ (by decide)

/-! ## Stable sort lemmas (shared by the final-recommendation claims) -/

theorem insertByCountDesc_perm (x : String × ℕ) :
    ∀ l : List (String × ℕ), (insertByCountDesc x l).Perm (x :: l) := by
  intro l
  induction l with
  | nil => exact List.Perm.refl _
  | cons y ys ih =>
    by_cases h : x.2 < y.2
    · simp only [insertByCountDesc, if_pos h]
      exact (ih.cons y).trans (List.Perm.swap x y ys)
    · simp only [insertByCountDesc, if_neg h]
      exact List.Perm.refl _

theorem sortByCountDesc_perm : ∀ l : List (String × ℕ),
    (sortByCountDesc l).Perm l := by
  intro l
  induction l with
  | nil => exact List.Perm.refl _
  | cons x xs ih =>
    show (insertByCountDesc x (sortByCountDesc xs)).Perm (x :: xs)
    exact (insertByCountDesc_perm x _).trans (ih.cons x)

theorem pairwise_insertByCountDesc (x : String × ℕ) :
    ∀ l : List (String × ℕ),
      l.Pairwise (fun u v => v.2 ≤ u.2) →
      (insertByCountDesc x l).Pairwise (fun u v => v.2 ≤ u.2) := by
  intro l
  induction l with
  | nil => intro _; simp [insertByCountDesc]
  | cons y ys ih =>
    intro hp
    rw [List.pairwise_cons] at hp
    obtain ⟨hy, hys⟩ := hp
    by_cases h : x.2 < y.2
    · simp only [insertByCountDesc, if_pos h]
      rw [List.pairwise_cons]
      refine ⟨?_, ih hys⟩
      intro z hz
      rcases List.mem_cons.mp ((insertByCountDesc_perm x ys).mem_iff.mp hz)
        with rfl | hz2
      · omega
      · exact hy z hz2
    · simp only [insertByCountDesc, if_neg h]
      rw [List.pairwise_cons]
      constructor
      · intro z hz
        rcases List.mem_cons.mp hz with rfl | hz2
        · omega
        · have := hy z hz2
          omega
      · rw [List.pairwise_cons]
        exact ⟨hy, hys⟩

theorem sortByCountDesc_sorted : ∀ l : List (String × ℕ),
    (sortByCountDesc l).Pairwise (fun u v => v.2 ≤ u.2) := by
  intro l
  induction l with
  | nil => exact List.Pairwise.nil
  | cons x xs ih => exact pairwise_insertByCountDesc x _ ih

/-! ## Claim C3 -/

/-- An aggregator fed 7 recommendations for strategy `A` and 16 undetermined
ones: the winner's raw share is `700/23 ≈ 30.43`, which rounds down to a
reported percentage of 30 while the confidence check `percentage <= 30` runs
on the unrounded value and therefore does not fire. -/
def a3c : Analyzer :=
  (List.replicate 7 (some "A") ++
    List.replicate 16 (none : Option String)).foldl
    (fun a s => a.addRecommendation "Критерий" s "test") Analyzer.fresh

/-- C3 counterexample: the reported (rounded) percentage is 30, yet the
confidence is `medium`, not `low`, because the source compares the
thresholds against the raw percentage before rounding. -/
theorem c3_counterexample :
    a3c.getFinalRecommendation.percentage = 30 ∧
    a3c.getFinalRecommendation.confidence = "medium" ∧
    a3c.getFinalRecommendation.total = 23 ∧
    a3c.getFinalRecommendation.frequency = 7 := by
  have hfreq : a3c.getFrequencyAnalysis = [("A", 7)] := by decide
  have hemp : a3c.getFrequencyAnalysis.isEmpty = false := by rw [hfreq]; rfl
  have hs : sortByCountDesc a3c.getFrequencyAnalysis = [("A", 7)] := by
    rw [hfreq]; rfl
  have hlen : a3c.recommendations.length = 23 := by decide
  have hfr : a3c.getFinalRecommendation =
      { strategy := some "A", frequency := 7, total := 23,
        percentage := 30, confidence := "medium", hasTie := some false,
        alternatives := some [] } := by
    simp only [Analyzer.getFinalRecommendation, hemp, Bool.false_eq_true,
      if_false, hs, hlen]
    norm_num [jsRound, Int.floor_eq_iff]
  rw [hfr]
  exact ⟨rfl, rfl, rfl, rfl⟩

/-- The three confidence bands of the source's `if` cascade, characterised
against the raw percentage. -/
theorem confidence_cases (pct : ℚ) :
    ((if 70 ≤ pct then "high" else if pct ≤ 30 then "low" else "medium") =
      "high" ↔ 70 ≤ pct) ∧
    ((if 70 ≤ pct then "high" else if pct ≤ 30 then "low" else "medium") =
      "low" ↔ pct ≤ 30) ∧
    ((if 70 ≤ pct then "high" else if pct ≤ 30 then "low" else "medium") =
      "medium" ↔ (30 < pct ∧ pct < 70)) := by
  by_cases h70 : 70 ≤ pct
  · rw [if_pos h70]
    refine ⟨by simp [h70], ?_, ?_⟩
    · constructor
      · intro hh; exact absurd hh (by decide)
      · intro h30; linarith
    · constructor
      · intro hh; exact absurd hh (by decide)
      · rintro ⟨-, h2⟩; linarith
  · rw [if_neg h70]
    by_cases h30 : pct ≤ 30
    · rw [if_pos h30]
      refine ⟨?_, by simp [h30], ?_⟩
      · constructor
        · intro hh; exact absurd hh (by decide)
        · intro hh; linarith
      · constructor
        · intro hh; exact absurd hh (by decide)
        · rintro ⟨h1, -⟩; linarith
    · rw [if_neg h30]
      refine ⟨?_, ?_, ?_⟩
      · constructor
        · intro hh; exact absurd hh (by decide)
        · intro hh; linarith
      · constructor
        · intro hh; exact absurd hh (by decide)
        · intro hh; linarith
      · constructor
        · intro _; constructor <;> linarith
        · intro _; rfl

/-- C3 (amended): with a non-empty frequency map, the reported `percentage`
is `round(winnerCount / totalRecommendations * 100)` where
`totalRecommendations` counts every recorded recommendation including the
undetermined ones; but the confidence bands are evaluated on the raw
(unrounded) percentage: `high` iff it is `≥ 70`, `low` iff it is `≤ 30`,
`medium` otherwise. -/
theorem c3_amended_theorem (a : Analyzer) (h : a.getFrequencyAnalysis ≠ []) :
    a.getFinalRecommendation.total = a.recommendations.length ∧
    a.getFinalRecommendation.percentage =
      jsRound ((a.getFinalRecommendation.frequency : ℚ) /
        (a.recommendations.length : ℚ) * 100) ∧
    (a.getFinalRecommendation.confidence = "high" ↔
      70 ≤ (a.getFinalRecommendation.frequency : ℚ) /
        (a.recommendations.length : ℚ) * 100) ∧
    (a.getFinalRecommendation.confidence = "low" ↔
      (a.getFinalRecommendation.frequency : ℚ) /
        (a.recommendations.length : ℚ) * 100 ≤ 30) ∧
    (a.getFinalRecommendation.confidence = "medium" ↔
      (30 < (a.getFinalRecommendation.frequency : ℚ) /
        (a.recommendations.length : ℚ) * 100 ∧
       (a.getFinalRecommendation.frequency : ℚ) /
        (a.recommendations.length : ℚ) * 100 < 70)) := by
  rcases hs : sortByCountDesc a.getFrequencyAnalysis with _ | ⟨⟨s, count⟩, rest⟩
  · exfalso
    have hl := (sortByCountDesc_perm a.getFrequencyAnalysis).length_eq
    rw [hs] at hl
    exact h (List.length_eq_zero.mp hl.symm)
  · have hemp : a.getFrequencyAnalysis.isEmpty = false := by
      cases hf : a.getFrequencyAnalysis with
      | nil => exact absurd hf h
      | cons _ _ => rfl
    have htot : a.getFinalRecommendation.total = a.recommendations.length := by
      simp only [Analyzer.getFinalRecommendation, hemp, Bool.false_eq_true,
        if_false, hs]
    have hcnt : a.getFinalRecommendation.frequency = count := by
      simp only [Analyzer.getFinalRecommendation, hemp, Bool.false_eq_true,
        if_false, hs]
    have hpctf : a.getFinalRecommendation.percentage =
        jsRound ((count : ℚ) / (a.recommendations.length : ℚ) * 100) := by
      simp only [Analyzer.getFinalRecommendation, hemp, Bool.false_eq_true,
        if_false, hs]
    have hconff : a.getFinalRecommendation.confidence =
        (if 70 ≤ (count : ℚ) / (a.recommendations.length : ℚ) * 100
         then "high"
         else if (count : ℚ) / (a.recommendations.length : ℚ) * 100 ≤ 30
         then "low" else "medium") := by
      simp only [Analyzer.getFinalRecommendation, hemp, Bool.false_eq_true,
        if_false, hs]
    obtain ⟨hc1, hc2, hc3⟩ :=
      confidence_cases ((count : ℚ) / (a.recommendations.length : ℚ) * 100)
    rw [htot, hcnt, hpctf, hconff]
    exact ⟨rfl, rfl, hc1, hc2, hc3⟩

/-- A two-recommendation aggregator with a non-empty frequency map. -/
def a3w : Analyzer :=
  (Analyzer.fresh.addRecommendation "Критерий Вальда" (some "A")
    "wald").addRecommendation "Критерий Сэвиджа" (some "B") "savage"

/-- C3 witness: the amended percentage/confidence description instantiated
at a concrete two-recommendation aggregator. -/
theorem c3_witness :
    a3w.getFinalRecommendation.total = a3w.recommendations.length ∧
    a3w.getFinalRecommendation.percentage =
      jsRound ((a3w.getFinalRecommendation.frequency : ℚ) /
        (a3w.recommendations.length : ℚ) * 100) ∧
    (a3w.getFinalRecommendation.confidence = "high" ↔
      70 ≤ (a3w.getFinalRecommendation.frequency : ℚ) /
        (a3w.recommendations.length : ℚ) * 100) ∧
    (a3w.getFinalRecommendation.confidence = "low" ↔
      (a3w.getFinalRecommendation.frequency : ℚ) /
        (a3w.recommendations.length : ℚ) * 100 ≤ 30) ∧
    (a3w.getFinalRecommendation.confidence = "medium" ↔
      (30 < (a3w.getFinalRecommendation.frequency : ℚ) /
        (a3w.recommendations.length : ℚ) * 100 ∧
       (a3w.getFinalRecommendation.frequency : ℚ) /
        (a3w.recommendations.length : ℚ) * 100 < 70)) :=
  c3_amended_theorem a3w (by decide)

/-! ## Claim C4 -/

theorem foldl_max_base_le : ∀ (l : List ℕ) (c : ℕ), c ≤ l.foldl max c := by
  intro l
  induction l with
  | nil => intro c; exact le_refl c
  | cons b l ih =>
    intro c
    rw [List.foldl_cons]
    exact le_trans (le_max_left c b) (ih (max c b))

theorem foldl_max_mem_le : ∀ (l : List ℕ) (c b : ℕ),
    b ∈ l → b ≤ l.foldl max c := by
  intro l
  induction l with
  | nil => intro c b hb; cases hb
  | cons d l ih =>
    intro c b hb
    rw [List.foldl_cons]
    rcases List.mem_cons.mp hb with rfl | hb2
    · exact le_trans (le_max_right c b) (foldl_max_base_le l _)
    · exact ih _ b hb2

theorem foldl_max_attained : ∀ (l : List ℕ) (c : ℕ),
    l.foldl max c = c ∨ l.foldl max c ∈ l := by
  intro l
  induction l with
  | nil => intro c; exact Or.inl rfl
  | cons b l ih =>
    intro c
    rw [List.foldl_cons]
    rcases ih (max c b) with h | h
    · rw [h]
      rcases max_choice c b with h2 | h2
      · exact Or.inl h2
      · rw [h2]
        exact Or.inr (List.mem_cons_self b l)
    · exact Or.inr (List.mem_cons_of_mem b h)

/-- The upper-bound half: every count in the map is at most the running
`Math.max`-style maximum. -/
theorem pairsMax_ub (x : String × ℕ) (xs : List (String × ℕ)) :
    ∀ kv ∈ x :: xs, kv.2 ≤ (xs.map (fun kv => kv.2)).foldl max x.2 := by
  intro kv hkv
  rcases List.mem_cons.mp hkv with rfl | h2
  · exact foldl_max_base_le _ _
  · exact foldl_max_mem_le _ _ _ (List.mem_map_of_mem _ h2)

/-- The maximum count is attained by some entry of the map. -/
theorem pairsMax_attained (x : String × ℕ) (xs : List (String × ℕ)) :
    ∃ kv ∈ x :: xs, kv.2 = (xs.map (fun kv => kv.2)).foldl max x.2 := by
  rcases foldl_max_attained (xs.map (fun kv => kv.2)) x.2 with h | h
  · exact ⟨x, List.mem_cons_self _ _, h.symm⟩
  · obtain ⟨kv, hmem, heq⟩ := List.mem_map.mp h
    exact ⟨kv, List.mem_cons_of_mem _ hmem, heq⟩

/-- Folding `Math.max` over the casted counts computes the natural-number
maximum. -/
theorem foldl_jsMax2_pairs : ∀ (l : List (String × ℕ)) (c : ℕ),
    (l.map (fun kv => JSNum.num (kv.2 : ℚ))).foldl jsMax2 (JSNum.num (c : ℚ)) =
      JSNum.num (((l.map (fun kv => kv.2)).foldl max c : ℕ) : ℚ) := by
  intro l
  induction l with
  | nil => intro c; rfl
  | cons kv l ih =>
    intro c
    rw [List.map_cons, List.foldl_cons, List.map_cons, List.foldl_cons]
    have hstep : jsMax2 (JSNum.num (c : ℚ)) (JSNum.num (kv.2 : ℚ)) =
        JSNum.num ((max c kv.2 : ℕ) : ℚ) := by
      rcases le_or_lt kv.2 c with h | h
      · have hlt : ¬ ((c : ℚ) < (kv.2 : ℚ)) := by exact_mod_cast not_lt.mpr h
        simp [jsMax2, jsGt, hlt, max_eq_left h]
      · have hlt : (c : ℚ) < (kv.2 : ℚ) := by exact_mod_cast h
        simp [jsMax2, jsGt, hlt, max_eq_right (le_of_lt h)]
    rw [hstep]
    exact ih (max c kv.2)

/-- Filtering the casted counts by strict equality with the casted maximum
counts the entries attaining the maximum. -/
theorem filter_strictEq_count : ∀ (l : List (String × ℕ)) (Mn : ℕ),
    ((l.map (fun kv => JSNum.num (kv.2 : ℚ))).filter
      (fun v => jsStrictEq v (JSNum.num (Mn : ℚ)))).length =
      l.countP (fun kv => kv.2 == Mn) := by
  intro l
  induction l with
  | nil => intro Mn; rfl
  | cons kv l ih =>
    intro Mn
    rw [List.map_cons, List.filter_cons, List.countP_cons]
    by_cases h : kv.2 = Mn
    · have hse : jsStrictEq (JSNum.num (kv.2 : ℚ)) (JSNum.num (Mn : ℚ)) =
          true := by simp [jsStrictEq, h]
      have hbeq : (kv.2 == Mn) = true := by rw [beq_iff_eq]; exact h
      simp [hse, hbeq, ih Mn]
    · have hse : jsStrictEq (JSNum.num (kv.2 : ℚ)) (JSNum.num (Mn : ℚ)) =
          false := by
        have hne : ¬ ((kv.2 : ℚ) = (Mn : ℚ)) := by exact_mod_cast h
        simp [jsStrictEq, hne]
      have hbeq : (kv.2 == Mn) = false := by
        rw [beq_eq_false_iff_ne]; exact h
      simp [hse, hbeq, ih Mn]

/-- The spec-side predicate "shares the maximum frequency" agrees with
"count equals the maximum". -/
theorem countP_max_pred (x : String × ℕ) (xs : List (String × ℕ)) :
    (x :: xs).countP (fun kv => decide (∀ kv2 ∈ x :: xs, kv2.2 ≤ kv.2)) =
      (x :: xs).countP
        (fun kv => kv.2 == (xs.map (fun kv => kv.2)).foldl max x.2) := by
  apply List.countP_congr
  intro kv hkv
  obtain ⟨kv0, hkv0, hkv0eq⟩ := pairsMax_attained x xs
  simp only [decide_eq_true_iff, beq_iff_eq]
  constructor
  · intro hall
    exact le_antisymm (pairsMax_ub x xs kv hkv) (hkv0eq ▸ hall kv0 hkv0)
  · intro heq kv2 hkv2
    exact heq ▸ pairsMax_ub x xs kv2 hkv2

/-- C4: `hasConflicts()` is true exactly when more than one strategy shares
the maximum frequency, and it always coincides (as a boolean) with
`getFinalRecommendation().hasTie` — including the empty state, where the
early return carries no `hasTie` key (modelled `none`, falsy like
`undefined`) and `hasConflicts` computes `false` from `Math.max() =
-Infinity` without faulting.  Both operations are pure functions of the
aggregator state, so neither mutates it. -/
theorem c4_theorem (a : Analyzer) :
    (a.hasConflicts = true ↔
      1 < a.getFrequencyAnalysis.countP (fun kv =>
        decide (∀ kv2 ∈ a.getFrequencyAnalysis, kv2.2 ≤ kv.2))) ∧
    a.hasConflicts = a.getFinalRecommendation.hasTie.getD false := by
  rcases hf : a.getFrequencyAnalysis with _ | ⟨x, xs⟩
  · have hc : a.hasConflicts = false := by
      simp [Analyzer.hasConflicts, hf, jsMaxList]
    have ht : a.getFinalRecommendation.hasTie = none := by
      simp [Analyzer.getFinalRecommendation, hf]
    constructor
    · rw [hc]
      simp
    · rw [hc, ht]
      rfl
  · have hmax : jsMaxList ((x :: xs).map fun kv => JSNum.num (kv.2 : ℚ)) =
        JSNum.num (((xs.map (fun kv => kv.2)).foldl max x.2 : ℕ) : ℚ) := by
      simp only [jsMaxList, List.map_cons, List.foldl_cons]
      have h0 : jsMax2 JSNum.negInf (JSNum.num (x.2 : ℚ)) =
          JSNum.num (x.2 : ℚ) := rfl
      rw [h0, foldl_jsMax2_pairs]
    have hcnt : a.hasConflicts = decide (1 < (x :: xs).countP
        (fun kv => kv.2 == (xs.map (fun kv => kv.2)).foldl max x.2)) := by
      simp only [Analyzer.hasConflicts, hf, hmax, filter_strictEq_count]
    rcases hsort : sortByCountDesc (x :: xs) with _ | ⟨e0, rest⟩
    · exfalso
      have hl := (sortByCountDesc_perm (x :: xs)).length_eq
      rw [hsort] at hl
      exact absurd hl.symm (by simp)
    · have hperm : (e0 :: rest).Perm (x :: xs) := by
        rw [← hsort]; exact sortByCountDesc_perm _
      have hsorted : (e0 :: rest).Pairwise (fun u v => v.2 ≤ u.2) := by
        rw [← hsort]; exact sortByCountDesc_sorted _
      have he0 : e0.2 = (xs.map (fun kv => kv.2)).foldl max x.2 := by
        refine le_antisymm
          (pairsMax_ub x xs e0 (hperm.mem_iff.mp (List.mem_cons_self _ _))) ?_
        obtain ⟨kv0, hkv0, hkv0eq⟩ := pairsMax_attained x xs
        have hkv0in : kv0 ∈ e0 :: rest := hperm.mem_iff.mpr hkv0
        rcases List.mem_cons.mp hkv0in with rfl | hkv0rest
        · exact le_of_eq hkv0eq.symm
        · have := (List.pairwise_cons.mp hsorted).1 kv0 hkv0rest
          omega
      have hcp : (x :: xs).countP
          (fun kv => kv.2 == (xs.map (fun kv => kv.2)).foldl max x.2) =
          (e0 :: rest).countP
          (fun kv => kv.2 == (xs.map (fun kv => kv.2)).foldl max x.2) :=
        (hperm.countP_eq _).symm
      have htie : a.getFinalRecommendation.hasTie =
          some (match rest with
            | [] => false
            | e2 :: _ => e2.2 == e0.2) := by
        simp only [Analyzer.getFinalRecommendation, hf, List.isEmpty_cons,
          Bool.false_eq_true, if_false, hsort]
      constructor
      · rw [hcnt, countP_max_pred]
        exact decide_eq_true_iff
      · rw [hcnt, htie]
        cases rest with
        | nil =>
          have h1 : (e0 :: ([] : List (String × ℕ))).countP
              (fun kv => kv.2 == (xs.map (fun kv => kv.2)).foldl max x.2) =
              1 := by
            simp [List.countP_cons, he0]
          rw [hcp, h1]
          rfl
        | cons e1 rest2 =>
          rw [hcp]
          by_cases he1 : e1.2 = (xs.map (fun kv => kv.2)).foldl max x.2
          · have hN : 1 < (e0 :: e1 :: rest2).countP
                (fun kv => kv.2 == (xs.map (fun kv => kv.2)).foldl max x.2) := by
              rw [List.countP_cons, List.countP_cons]
              have hp0 : (e0.2 == (xs.map (fun kv => kv.2)).foldl max x.2) =
                  true := by rw [beq_iff_eq]; exact he0
              have hp1 : (e1.2 == (xs.map (fun kv => kv.2)).foldl max x.2) =
                  true := by rw [beq_iff_eq]; exact he1
              simp [hp1, hp0]
            have hR : (e1.2 == e0.2) = true := by
              rw [beq_iff_eq, he1, he0]
            rw [decide_eq_true hN]
            show true = (e1.2 == e0.2)
            exact hR.symm
          · have hhead := (List.pairwise_cons.mp hsorted).1
            have h10 : e1.2 ≤ e0.2 := hhead e1 (List.mem_cons_self _ _)
            have htail := (List.pairwise_cons.mp hsorted).2
            have hrest : ∀ z ∈ rest2, z.2 ≤ e1.2 :=
              (List.pairwise_cons.mp htail).1
            have hzero : rest2.countP
                (fun kv => kv.2 == (xs.map (fun kv => kv.2)).foldl max x.2) =
                0 := by
              rw [List.countP_eq_zero]
              intro z hz
              rw [beq_iff_eq]
              intro heq
              have h1 := hrest z hz
              have h2 : e1.2 ≤ e0.2 := h10
              rw [he0] at h2
              omega
            have hone : (e0 :: e1 :: rest2).countP
                (fun kv => kv.2 == (xs.map (fun kv => kv.2)).foldl max x.2) =
                1 := by
              rw [List.countP_cons, List.countP_cons, hzero]
              have hp0 : (e0.2 == (xs.map (fun kv => kv.2)).foldl max x.2) =
                  true := by rw [beq_iff_eq]; exact he0
              have hp1 : (e1.2 == (xs.map (fun kv => kv.2)).foldl max x.2) =
                  false := by
                rw [beq_eq_false_iff_ne]
                exact he1
              simp [hp0, hp1]
            have hR : (e1.2 == e0.2) = false := by
              rw [beq_eq_false_iff_ne]
              intro hcontra
              exact he1 (hcontra.trans he0)
            rw [hone]
            show decide (1 < 1) = (e1.2 == e0.2)
            rw [hR]
            rfl
